import Mathlib

/-!
Verification of the statistical core of `AuthorthipAnalysis.py` (binary
authorship verification over two authors' texts).

The Python code works with `dict` / `collections.defaultdict` objects whose
iteration order is insertion order.  We embed every such dictionary as an
association list (`List (κ × β)`) together with the operations the source
uses:

* `dlookup d t k` — `t[k]` on a `defaultdict` with default `d`, *without*
  the insertion side effect (used to state specifications);
* `dget d t k` — `t[k]` on a `defaultdict` with default `d`, *with* the
  insertion side effect: it returns the possibly-extended table and the
  value (missing keys are appended at the end with the default, exactly as
  CPython appends newly inserted keys in insertion order);
* `dset t k v` — `t[k] = v`: updates an existing key in place, otherwise
  appends;
* `dupdate`/`dadd` — `t[k] f= x` compound assignment: a `dget` followed by
  a `dset`.

Machine floats of the source (`math.pow`, true division, the occurrence
rates) are modelled as exact rationals `ℚ`; all numbers involved are small
integer-valued quantities and quotients thereof.  Python exceptions
(`ZeroDivisionError` of `/` and `/=`, `ValueError` of `max` on an empty
sequence) are modelled with `Except String`.
-/

set_option linter.unusedSectionVars false
set_option linter.unusedVariables false

namespace AuthorshipAnalysis

/-- Membership test of a key in an association list (Python `k in d`). -/
def dmem [DecidableEq κ] (t : List (κ × β)) (k : κ) : Bool :=
  match t with
  | [] => false
  | p :: rest => decide (p.1 = k) || dmem rest k

/-- Pure lookup with default `d` (the value `defaultdict.__getitem__`
returns, ignoring the insertion side effect). -/
def dlookup [DecidableEq κ] (d : β) (t : List (κ × β)) (k : κ) : β :=
  match t with
  | [] => d
  | p :: rest => if p.1 = k then p.2 else dlookup d rest k

/-- `t[k] = v` on a Python dict: update in place, else append. -/
def dset [DecidableEq κ] (t : List (κ × β)) (k : κ) (v : β) : List (κ × β) :=
  match t with
  | [] => [(k, v)]
  | p :: rest => if p.1 = k then (k, v) :: rest else p :: dset rest k v

/-- `t[k]` on a `defaultdict(lambda: d)`: missing keys are inserted (at the
end) with the default.  Returns the new table and the value read. -/
def dget [DecidableEq κ] (d : β) (t : List (κ × β)) (k : κ) :
    List (κ × β) × β :=
  if dmem t k then (t, dlookup d t k) else (t ++ [(k, d)], d)

/-- Compound assignment `t[k] = f(t[k])` on a `defaultdict(lambda: d)`. -/
def dupdate [DecidableEq κ] (d : β) (t : List (κ × β)) (k : κ) (f : β → β) :
    List (κ × β) :=
  let r := dget d t k
  dset r.1 k (f r.2)

/-- `t[k] += x` on a `defaultdict(lambda: d)`. -/
def dadd [DecidableEq κ] [Add β] (d : β) (t : List (κ × β)) (k : κ) (x : β) :
    List (κ × β) :=
  dupdate d t k (fun v => v + x)

/-- `sum(t.values())` for an integer-valued table. -/
def sumValuesN (t : List (κ × Nat)) : Nat := (t.map Prod.snd).sum

/-- `sum(t.values())` for a rational-valued table. -/
def sumValuesQ (t : List (κ × ℚ)) : ℚ := (t.map Prod.snd).sum

/-- The table left behind by a sequence of `defaultdict` reads at the keys
`ks` (each read appends the key with the default when it is missing). -/
def touchAll [DecidableEq κ] (d : β) (t : List (κ × β)) (ks : List κ) :
    List (κ × β) :=
  ks.foldl (fun t k => (dget d t k).1) t

/-- A word character of the tokenizer regex `\w` (modelled on ASCII:
letters, digits, underscore). -/
def isWordChar (c : Char) : Bool := c.isAlphanum || c == '_'

/-- Streaming extraction of maximal runs of word characters; `acc` holds
the current (reversed) run.  Models `nltk.tokenize.RegexpTokenizer(r'\w+')`. -/
def tokenizeChars : List Char → List Char → List String
  | [], acc => if acc.isEmpty then [] else [String.mk acc.reverse]
  | c :: cs, acc =>
    if isWordChar c then tokenizeChars cs (c :: acc)
    else if acc.isEmpty then tokenizeChars cs []
    else String.mk acc.reverse :: tokenizeChars cs []

/-- `get_tokenized_text` (source lines 40-53): the list of maximal runs of
word characters of the text, in order. -/
def get_tokenized_text (original_text : String) : List String :=
  tokenizeChars original_text.data []

/-- `nltk.ngrams(toks, n)`: all contiguous windows of `n` tokens, in order;
empty when the text has fewer than `n` tokens. -/
def ngrams (toks : List α) (n : Nat) : List (List α) :=
  (List.range (toks.length + 1 - n)).map (fun i => (toks.drop i).take n)

/-- The body of `create_ngram_count_by_author` for one author and one `n`
(source lines 176-182): fold `+= 1` over every `n`-gram of every known
text into a `defaultdict(int)`. -/
def create_ngram_count (knownTexts : List String) (n : Nat) :
    List (List String × Nat) :=
  knownTexts.foldl
    (fun t known_text =>
      (ngrams (get_tokenized_text known_text) n).foldl
        (fun t g => dadd 0 t g 1) t)
    []

/-- The body of `create_each_word_occurrence_rate_by_author` for one author
(source lines 194-201): `rate[word] = count / sum(counts)` assigned in the
iteration order of the `n = 1` table into a fresh `defaultdict(float)`.
When the `n = 1` table is empty the loop body never runs, so the division
by the zero sum is never executed and the table stays empty. -/
def create_word_occurrence_rate (n1 : List (List String × Nat)) :
    List (List String × ℚ) :=
  let word_count_sum : Nat := sumValuesN n1
  n1.foldl (fun r p => dset r p.1 ((p.2 : ℚ) / (word_count_sum : ℚ))) []

/-- The per-author model state: the three n-gram count tables
(`ngram_count_by_author[name][n]` for `n = 1, 2, 3`) and the word
occurrence rate table (`each_word_occurrence_rate_by_author[name]`). -/
structure AuthorTables where
  ng1 : List (List String × Nat)
  ng2 : List (List String × Nat)
  ng3 : List (List String × Nat)
  rate : List (List String × ℚ)

/-- `ngram_count_by_author[name][n]`. -/
def AuthorTables.getNg (t : AuthorTables) : Nat → List (List String × Nat)
  | 1 => t.ng1
  | 2 => t.ng2
  | 3 => t.ng3
  | _ => []

/-- Write back `ngram_count_by_author[name][n]`. -/
def AuthorTables.setNg (t : AuthorTables) :
    Nat → List (List String × Nat) → AuthorTables
  | 1, x => { t with ng1 := x }
  | 2, x => { t with ng2 := x }
  | 3, x => { t with ng3 := x }
  | _, _ => t

/-- Model construction for one author from its known texts
(`create_ngram_count_by_author` + `create_each_word_occurrence_rate_by_author`). -/
def buildAuthorTables (knownTexts : List String) : AuthorTables :=
  ⟨create_ngram_count knownTexts 1,
   create_ngram_count knownTexts 2,
   create_ngram_count knownTexts 3,
   create_word_occurrence_rate (create_ngram_count knownTexts 1)⟩

/-- `divide_questioned_texts_and_known_texts` for one author (source lines
147-157), parameterised by the already-shuffled text list
(`random.sample(texts, len(texts))` is a uniformly random permutation).
`int(len * 0.9)` equals `9 * len / 10` in exact arithmetic; the double
rounding of `len * 0.9` cannot cross an integer for any list size the
program can produce (it fetches at most 2000 tweets per author). -/
def divide_questioned_texts_and_known_texts (shuffled : List String) :
    List String × List String :=
  let known_text_count := 9 * shuffled.length / 10
  (shuffled.take known_text_count, shuffled.drop known_text_count)

/-- One iteration of the innermost loops of the n-gram accumulation
(source lines 233-235), for one window `g` and `n` fixed: for each of the
two authors (in `author_names` order, first `a1` then `a2`) read
`ngram_count_by_author[name][n][g]` (a `defaultdict(int)` read, which
inserts missing keys with `0`) and do
`score_dict[name] += count * math.pow(50, n - 1)`. -/
def phase1Step (a1 a2 : String) (n : Nat)
    (s : AuthorTables × AuthorTables × List (String × ℚ))
    (g : List String) : AuthorTables × AuthorTables × List (String × ℚ) :=
  let r1 := dget 0 (s.1.getNg n) g
  let t1 := s.1.setNg n r1.1
  let sd1 := dadd 0 s.2.2 a1 ((r1.2 : ℚ) * 50 ^ (n - 1))
  let r2 := dget 0 (s.2.1.getNg n) g
  let t2 := s.2.1.setNg n r2.1
  let sd2 := dadd 0 sd1 a2 ((r2.2 : ℚ) * 50 ^ (n - 1))
  (t1, t2, sd2)

/-- The `for ngram in nltk.ngrams(tokenized_text, n)` loop (source line
233) for one fixed `n`. -/
def phase1N (a1 a2 : String) (n : Nat) (gs : List (List String))
    (s : AuthorTables × AuthorTables × List (String × ℚ)) :
    AuthorTables × AuthorTables × List (String × ℚ) :=
  gs.foldl (phase1Step a1 a2 n) s

/-- The n-gram accumulation step of the scorer (source lines 230-235):
starting from a fresh `score_dict = defaultdict(int)`, loop
`for n in [1, 2, 3]`. -/
def phase1 (a1 a2 : String) (toks : List String) (t1 t2 : AuthorTables) :
    AuthorTables × AuthorTables × List (String × ℚ) :=
  [1, 2, 3].foldl (fun s n => phase1N a1 a2 n (ngrams toks n) s) (t1, t2, [])

/-- The word-count-ratio normalization step (source lines 237-242):
`total_word_count_ratio = author_1_total / author_2_total` (raising
`ZeroDivisionError` when the second author's total is `0`), then
`score_dict[author_names[0]] /= total_word_count_ratio` (raising
`ZeroDivisionError` when the ratio itself is `0`, i.e. when the first
author's total is `0`).  The totals are read from the current (possibly
zero-extended) `n = 1` tables. -/
def phase2 (a1 _a2 : String)
    (s : AuthorTables × AuthorTables × List (String × ℚ)) :
    Except String (AuthorTables × AuthorTables × List (String × ℚ)) :=
  let author_1_total_word_count : Nat := sumValuesN s.1.ng1
  let author_2_total_word_count : Nat := sumValuesN s.2.1.ng1
  if author_2_total_word_count = 0 then
    .error "ZeroDivisionError: division by zero"
  else
    let r : ℚ := (author_1_total_word_count : ℚ) / (author_2_total_word_count : ℚ)
    if r = 0 then .error "ZeroDivisionError: float division by zero"
    else .ok (s.1, s.2.1, dupdate 0 s.2.2 a1 (fun v => v / r))

/-- The inner loop of the occurrence-rate step (source lines 245-246) for
one author `a`: for every 1-gram `w` of the text read
`each_word_occurrence_rate_by_author[a][w]` (a `defaultdict(float)` read,
which inserts missing keys with `0.0`) and do
`score_dict[a] += rate * 100000`. -/
def phase3A (a : String) (ws : List (List String))
    (s : List (List String × ℚ) × List (String × ℚ)) :
    List (List String × ℚ) × List (String × ℚ) :=
  ws.foldl
    (fun s w =>
      let r := dget 0 s.1 w
      (r.1, dadd 0 s.2 a (r.2 * 100000)))
    s

/-- The occurrence-rate step of the scorer (source lines 244-246): loop
`for known_author_name in author_names`, inner loop over the 1-grams. -/
def phase3 (a1 a2 : String) (ws : List (List String)) (t1 t2 : AuthorTables)
    (sd : List (String × ℚ)) :
    AuthorTables × AuthorTables × List (String × ℚ) :=
  let p1 := phase3A a1 ws (t1.rate, sd)
  let p2 := phase3A a2 ws (t2.rate, p1.2)
  ({ t1 with rate := p1.1 }, { t2 with rate := p2.1 }, p2.2)

/-- The scan Python's `max(items, key=...)` performs after its first
element: keep the current maximum, replacing it only on strict
improvement, so the first of several maximal entries wins. -/
def pymaxGo (k : String) (v : ℚ) : List (String × ℚ) → String
  | [] => k
  | p :: rest => if p.2 > v then pymaxGo p.1 p.2 rest else pymaxGo k v rest

/-- `max(score_dict.items(), key=lambda i: i[1])[0]` (source line 248);
`none` models the `ValueError` that `max` raises on an empty sequence. -/
def pymaxKey : List (String × ℚ) → Option String
  | [] => none
  | p :: rest => some (pymaxGo p.1 p.2 rest)

/-- The per-text result of `create_questioned_texts_analysis_result`
together with the model tables after scoring (the `defaultdict` reads of
the scorer mutate them). -/
structure Outcome where
  resultAuthor : String
  isCorrect : Bool
  scoreDict : List (String × ℚ)
  tables1 : AuthorTables
  tables2 : AuthorTables

/-- The body of the questioned-text loop of
`create_questioned_texts_analysis_result` (source lines 229-254) for one
questioned text of author `qa`, with the two candidate authors `a1`, `a2`
in `author_names` order. -/
def analyzeOne (a1 a2 qa text : String) (t1 t2 : AuthorTables) :
    Except String Outcome :=
  let toks := get_tokenized_text text
  let p1 := phase1 a1 a2 toks t1 t2
  match phase2 a1 a2 p1 with
  | .error e => .error e
  | .ok p2 =>
    let p3 := phase3 a1 a2 (ngrams toks 1) p2.1 p2.2.1 p2.2.2
    match pymaxKey p3.2.2 with
    | none => .error "ValueError: max() arg is an empty sequence"
    | some result_author_name =>
      .ok ⟨result_author_name, result_author_name == qa, p3.2.2, p3.1, p3.2.1⟩

/-- The questioned-text loop for one author `qa`: thread the mutated
tables from text to text and append each `(result_author, text,
is_correct)` triple. -/
def analyzeList (a1 a2 qa : String) :
    List String → AuthorTables → AuthorTables →
    List (String × String × Bool) →
    Except String (List (String × String × Bool) × AuthorTables × AuthorTables)
  | [], t1, t2, acc => .ok (acc, t1, t2)
  | text :: rest, t1, t2, acc =>
    match analyzeOne a1 a2 qa text t1 t2 with
    | .error e => .error e
    | .ok o =>
      analyzeList a1 a2 qa rest o.tables1 o.tables2
        (acc ++ [(o.resultAuthor, text, o.isCorrect)])

/-- `create_questioned_texts_analysis_result` (source lines 228-254):
first author's questioned texts, then the second author's. -/
def create_questioned_texts_analysis_result (a1 a2 : String)
    (q1 q2 : List String) (t1 t2 : AuthorTables) :
    Except String (List (String × String × Bool) × AuthorTables × AuthorTables) :=
  match analyzeList a1 a2 a1 q1 t1 t2 [] with
  | .error e => .error e
  | .ok (acc, t1, t2) => analyzeList a1 a2 a2 q2 t1 t2 acc

/-- `correct_author_cnt` of `print_accuracy` (source line 321): the number
of analysis results whose third component is `True`. -/
def countCorrect (results : List (String × String × Bool)) : Nat :=
  (results.filter (fun r => r.2.2)).length

/-- The percentage `print_accuracy` computes (source lines 317-323):
`correct_author_cnt / total_questioned_text_cnt * 100`, where the total is
the total number of questioned texts across both authors; Python's `/`
raises `ZeroDivisionError` when that total is `0`. -/
def print_accuracy_value (q1len q2len : Nat)
    (results : List (String × String × Bool)) : Except String ℚ :=
  let total_questioned_text_cnt := q1len + q2len
  if total_questioned_text_cnt = 0 then
    .error "ZeroDivisionError: division by zero"
  else
    .ok ((countCorrect results : ℚ) / (total_questioned_text_cnt : ℚ) * 100)

/-- The contribution of a window list `gs` read against table `t` with
weight `w`: `sum over g of t[g] * w` (`0` for missing windows). -/
def winScore (t : List (List String × Nat)) (w : ℚ)
    (gs : List (List String)) : ℚ :=
  (gs.map (fun g => ((dlookup 0 t g : ℕ) : ℚ) * w)).sum

/-- The occurrence-rate contribution for one author: `sum over w of
rate[w] * 100000` (`0` for unknown tokens). -/
def rateScore (r : List (List String × ℚ)) (ws : List (List String)) : ℚ :=
  (ws.map (fun w => dlookup 0 r w * 100000)).sum

/-- The n-gram accumulation total an author receives for a tokenized text:
`sum over n in [1, 2, 3], over every contiguous n-window g, of
count(g, author, n) * 50 ^ (n - 1)`. -/
def ngramPhaseScore (t : AuthorTables) (toks : List String) : ℚ :=
  ([1, 2, 3].map
    (fun n => winScore (t.getNg n) (50 ^ (n - 1)) (ngrams toks n))).sum

/-- Projection of a scoring result to prediction and correctness flag. -/
def outcomeSummary (r : Except String Outcome) : Option (String × Bool) :=
  match r with
  | .error _ => none
  | .ok o => some (o.resultAuthor, o.isCorrect)

/-- Projection of a scoring result to one author's final score. -/
def scoreOf (r : Except String Outcome) (a : String) : Option ℚ :=
  match r with
  | .error _ => none
  | .ok o => some (dlookup 0 o.scoreDict a)

/-- Whether a scoring result succeeded with equal final scores for the two
authors. -/
def scoreTie (a1 a2 : String) (r : Except String Outcome) : Bool :=
  match r with
  | .error _ => false
  | .ok o => decide (dlookup 0 o.scoreDict a1 = dlookup 0 o.scoreDict a2)

/-- Projection of a scoring result to the mutated model tables. -/
def tablesOf (r : Except String Outcome) :
    Option (AuthorTables × AuthorTables) :=
  match r with
  | .error _ => none
  | .ok o => some (o.tables1, o.tables2)

/-- `new` extends `old` by appended entries that all carry the value `z`
(so every lookup with default `z` is unchanged). -/
def extendsWithZeros [DecidableEq κ] [DecidableEq β] (z : β)
    (old new : List (κ × β)) : Bool :=
  decide (new.take old.length = old) &&
    (new.drop old.length).all (fun p => decide (p.2 = z))

/-- Scoring succeeded and only appended zero-valued entries to the eight
model tables (three n-gram tables and one rate table per author). -/
def preservesTables (t1 t2 : AuthorTables) (r : Except String Outcome) :
    Bool :=
  match r with
  | .error _ => false
  | .ok o =>
    extendsWithZeros 0 t1.ng1 o.tables1.ng1 &&
    extendsWithZeros 0 t1.ng2 o.tables1.ng2 &&
    extendsWithZeros 0 t1.ng3 o.tables1.ng3 &&
    extendsWithZeros 0 t1.rate o.tables1.rate &&
    extendsWithZeros 0 t2.ng1 o.tables2.ng1 &&
    extendsWithZeros 0 t2.ng2 o.tables2.ng2 &&
    extendsWithZeros 0 t2.ng3 o.tables2.ng3 &&
    extendsWithZeros 0 t2.rate o.tables2.rate

/-- The final score the first author ends up with for a questioned text
with token list `toks`: the n-gram accumulation divided by the word-count
ratio, plus the occurrence-rate contribution. -/
def finalScore1 (t1 t2 : AuthorTables) (toks : List String) : ℚ :=
  ngramPhaseScore t1 toks /
      ((sumValuesN t1.ng1 : ℚ) / (sumValuesN t2.ng1 : ℚ)) +
    rateScore t1.rate (ngrams toks 1)

/-- The final score the second author ends up with: the n-gram
accumulation (no ratio division) plus the occurrence-rate contribution. -/
def finalScore2 (t2 : AuthorTables) (toks : List String) : ℚ :=
  ngramPhaseScore t2 toks + rateScore t2.rate (ngrams toks 1)

/-- One author's tables after scoring a text with token list `toks`: each
table gains a zero entry for every window it was missing (the
`defaultdict` read side effect); no stored value changes. -/
def touchedTables (t : AuthorTables) (toks : List String) : AuthorTables :=
  ⟨touchAll 0 t.ng1 (ngrams toks 1), touchAll 0 t.ng2 (ngrams toks 2),
   touchAll 0 t.ng3 (ngrams toks 3), touchAll 0 t.rate (ngrams toks 1)⟩

/-- Concrete fixture: a model built from the single known text "alpha". -/
def alphaTables : AuthorTables := buildAuthorTables ["alpha"]

/-- Concrete fixture: a model built from the single known text "beta". -/
def betaTables : AuthorTables := buildAuthorTables ["beta"]

section DictLemmas

variable {κ : Type} {β : Type} [DecidableEq κ]

theorem dlookup_of_not_dmem {d : β} {t : List (κ × β)} {k : κ}
    (h : dmem t k = false) : dlookup d t k = d := by
  induction t with
  | nil => rfl
  | cons p rest ih =>
    simp only [dmem, Bool.or_eq_false_iff, decide_eq_false_iff_not] at h
    simp only [dlookup, if_neg h.1, ih h.2]

theorem dget_snd (d : β) (t : List (κ × β)) (k : κ) :
    (dget d t k).2 = dlookup d t k := by
  unfold dget
  split
  · rfl
  · next h =>
    rw [dlookup_of_not_dmem (Bool.of_not_eq_true h)]

theorem dlookup_append_of_forall (d : β) (t ext : List (κ × β)) (k : κ)
    (h : ∀ p ∈ ext, p.2 = d) : dlookup d (t ++ ext) k = dlookup d t k := by
  induction t with
  | nil =>
    simp only [List.nil_append, dlookup]
    induction ext with
    | nil => rfl
    | cons p rest ih =>
      simp only [dlookup]
      split
      · exact h p (by simp)
      · exact ih (fun q hq => h q (by simp [hq]))
  | cons p rest ih =>
    simp only [List.cons_append, dlookup]
    split
    · rfl
    · exact ih

theorem dget_fst_exists (d : β) (t : List (κ × β)) (k : κ) :
    ∃ ext, (dget d t k).1 = t ++ ext ∧ ∀ p ∈ ext, p.2 = d := by
  unfold dget
  split
  · exact ⟨[], by simp⟩
  · exact ⟨[(k, d)], by simp⟩

theorem dlookup_dget (d : β) (t : List (κ × β)) (k k' : κ) :
    dlookup d (dget d t k).1 k' = dlookup d t k' := by
  obtain ⟨ext, he, hz⟩ := dget_fst_exists d t k
  rw [he, dlookup_append_of_forall d t ext k' hz]

theorem dlookup_dset_self (d : β) (t : List (κ × β)) (k : κ) (v : β) :
    dlookup d (dset t k v) k = v := by
  induction t with
  | nil => simp [dset, dlookup]
  | cons p rest ih =>
    by_cases h : p.1 = k
    · simp [dset, if_pos h, dlookup]
    · simp [dset, if_neg h, dlookup, if_neg h, ih]

theorem dlookup_dset_of_ne (d : β) (t : List (κ × β)) (k k' : κ) (v : β)
    (h : k' ≠ k) : dlookup d (dset t k v) k' = dlookup d t k' := by
  induction t with
  | nil =>
    have h2 : ¬ (k = k') := fun hh => h hh.symm
    simp [dset, dlookup, if_neg h2]
  | cons p rest ih =>
    by_cases hp : p.1 = k
    · have : ¬ (k = k') := fun hh => h hh.symm
      simp [dset, if_pos hp, dlookup, if_neg this, hp]
    · simp only [dset, if_neg hp, dlookup]
      split
      · rfl
      · exact ih

theorem dset_of_not_dmem (t : List (κ × β)) (k : κ) (v : β)
    (h : dmem t k = false) : dset t k v = t ++ [(k, v)] := by
  induction t with
  | nil => rfl
  | cons p rest ih =>
    simp only [dmem, Bool.or_eq_false_iff, decide_eq_false_iff_not] at h
    simp only [dset, if_neg h.1, List.cons_append, ih h.2]

theorem dset_append_single (t : List (κ × β)) (k : κ) (d v : β)
    (h : dmem t k = false) : dset (t ++ [(k, d)]) k v = t ++ [(k, v)] := by
  induction t with
  | nil => simp [dset]
  | cons p rest ih =>
    simp only [dmem, Bool.or_eq_false_iff, decide_eq_false_iff_not] at h
    simp [dset, if_neg h.1, ih h.2]

theorem dupdate_eq (d : β) (t : List (κ × β)) (k : κ) (f : β → β) :
    dupdate d t k f = dset t k (f (dlookup d t k)) := by
  unfold dupdate dget
  split
  · rfl
  · next h =>
    have hf := Bool.of_not_eq_true h
    rw [dlookup_of_not_dmem hf, dset_of_not_dmem _ _ _ hf,
      dset_append_single _ _ _ _ hf]

theorem dset_dset (t : List (κ × β)) (k : κ) (v w : β) :
    dset (dset t k v) k w = dset t k w := by
  induction t with
  | nil => simp [dset]
  | cons p rest ih =>
    by_cases h : p.1 = k
    · simp [dset, if_pos h]
    · simp [dset, if_neg h, ih]

theorem dmem_dset (t : List (κ × β)) (k k' : κ) (v : β) :
    dmem (dset t k v) k' = (dmem t k' || decide (k' = k)) := by
  induction t with
  | nil => simp [dset, dmem, eq_comm]
  | cons p rest ih =>
    obtain ⟨p1, p2⟩ := p
    by_cases h : p1 = k
    · subst h
      by_cases h' : p1 = k'
      · subst h'
        simp [dset, dmem]
      · have h2 : ¬ (k' = p1) := fun hh => h' hh.symm
        simp [dset, dmem, h', h2]
    · simp [dset, if_neg h, dmem, ih, Bool.or_assoc]

theorem dset_self_of_dmem (d : β) (t : List (κ × β)) (k : κ)
    (h : dmem t k = true) : dset t k (dlookup d t k) = t := by
  induction t with
  | nil => simp [dmem] at h
  | cons p rest ih =>
    obtain ⟨p1, p2⟩ := p
    by_cases hp : p1 = k
    · subst hp
      simp [dset, dlookup]
    · simp only [dmem, Bool.or_eq_true, decide_eq_true_eq] at h
      rcases h with h | h
      · exact absurd h hp
      · simp [dset, if_neg hp, dlookup, if_neg hp, ih h]

end DictLemmas

section TouchLemmas

variable {κ : Type} {β : Type} [DecidableEq κ]

theorem touchAll_nil (d : β) (t : List (κ × β)) : touchAll d t [] = t := rfl

theorem touchAll_cons (d : β) (t : List (κ × β)) (k : κ) (ks : List κ) :
    touchAll d t (k :: ks) = touchAll d (dget d t k).1 ks := rfl

theorem touchAll_exists_ext (d : β) (t : List (κ × β)) (ks : List κ) :
    ∃ ext, touchAll d t ks = t ++ ext ∧ ∀ p ∈ ext, p.2 = d := by
  induction ks generalizing t with
  | nil => exact ⟨[], by simp [touchAll]⟩
  | cons k ks ih =>
    obtain ⟨e1, he1, hz1⟩ := dget_fst_exists d t k
    obtain ⟨e2, he2, hz2⟩ := ih ((dget d t k).1)
    refine ⟨e1 ++ e2, ?_, ?_⟩
    · rw [touchAll_cons, he2, he1, List.append_assoc]
    · intro p hp
      rcases List.mem_append.mp hp with h | h
      · exact hz1 p h
      · exact hz2 p h

theorem dlookup_touchAll (d : β) (t : List (κ × β)) (ks : List κ) (k : κ) :
    dlookup d (touchAll d t ks) k = dlookup d t k := by
  obtain ⟨ext, he, hz⟩ := touchAll_exists_ext d t ks
  rw [he, dlookup_append_of_forall d t ext k hz]

theorem sumValuesN_append (t ext : List (κ × Nat)) :
    sumValuesN (t ++ ext) = sumValuesN t + sumValuesN ext := by
  simp [sumValuesN]

theorem sumValuesN_eq_zero_of_forall (ext : List (κ × Nat))
    (h : ∀ p ∈ ext, p.2 = 0) : sumValuesN ext = 0 := by
  apply List.sum_eq_zero
  intro x hx
  simp only [List.mem_map] at hx
  obtain ⟨p, hp, rfl⟩ := hx
  exact h p hp

theorem sumValuesN_touchAll (t : List (κ × Nat)) (ks : List κ) :
    sumValuesN (touchAll 0 t ks) = sumValuesN t := by
  obtain ⟨ext, he, hz⟩ := touchAll_exists_ext 0 t ks
  rw [he, sumValuesN_append, sumValuesN_eq_zero_of_forall ext hz, Nat.add_zero]

end TouchLemmas

section AddShapeLemmas

variable {κ : Type} {β : Type} [DecidableEq κ] [AddZeroClass β]

theorem dadd_eq_dset (t : List (κ × β)) (k : κ) (x : β) :
    dadd 0 t k x = dset t k (dlookup 0 t k + x) := by
  rw [dadd, dupdate_eq]

theorem dadd_nil_key (a : κ) (x : β) :
    dadd 0 ([] : List (κ × β)) a x = [(a, x)] := by
  rw [dadd_eq_dset]
  simp [dlookup, dset, zero_add]

theorem dadd_pair_fst (a1 a2 : κ) (s1 s2 x : β) :
    dadd 0 [(a1, s1), (a2, s2)] a1 x = [(a1, s1 + x), (a2, s2)] := by
  rw [dadd_eq_dset]
  simp [dlookup, dset]

theorem dadd_pair_snd (a1 a2 : κ) (s1 s2 x : β) (h : a1 ≠ a2) :
    dadd 0 [(a1, s1), (a2, s2)] a2 x = [(a1, s1), (a2, s2 + x)] := by
  rw [dadd_eq_dset]
  simp [dlookup, dset, if_neg h]

theorem dadd_single_other (a1 a2 : κ) (s1 x : β) (h : a1 ≠ a2) :
    dadd 0 [(a1, s1)] a2 x = [(a1, s1), (a2, x)] := by
  rw [dadd_eq_dset]
  simp [dlookup, dset, if_neg h, zero_add]

theorem dmem_dadd (t : List (κ × β)) (k k' : κ) (x : β) :
    dmem (dadd 0 t k x) k' = (dmem t k' || decide (k' = k)) := by
  rw [dadd, dupdate_eq, dmem_dset]

theorem dset_pair_fst (a1 a2 : κ) (s1 s2 v : β) :
    dset [(a1, s1), (a2, s2)] a1 v = [(a1, v), (a2, s2)] := by
  simp [dset]

theorem dlookup_pair_fst (a1 a2 : κ) (s1 s2 : β) :
    dlookup 0 [(a1, s1), (a2, s2)] a1 = s1 := by
  simp [dlookup]

theorem dlookup_pair_snd (a1 a2 : κ) (s1 s2 : β) (h : a1 ≠ a2) :
    dlookup 0 [(a1, s1), (a2, s2)] a2 = s2 := by
  simp [dlookup, if_neg h]

end AddShapeLemmas

theorem dadd_dadd {κ : Type} {β : Type} [DecidableEq κ] [AddMonoid β]
    (t : List (κ × β)) (k : κ) (x y : β) :
    dadd 0 (dadd 0 t k x) k y = dadd 0 t k (x + y) := by
  rw [dadd_eq_dset, dadd_eq_dset, dadd_eq_dset, dlookup_dset_self, dset_dset,
    add_assoc]

theorem setNg_getNg_self (t : AuthorTables) (n : Nat) :
    t.setNg n (t.getNg n) = t := by
  rcases n with _ | _ | _ | _ | m <;> rfl

theorem getNg_setNg_self (t : AuthorTables) (n : Nat)
    (x : List (List String × Nat)) (hn : n = 1 ∨ n = 2 ∨ n = 3) :
    (t.setNg n x).getNg n = x := by
  rcases hn with rfl | rfl | rfl <;> rfl

theorem setNg_setNg (t : AuthorTables) (n : Nat)
    (x y : List (List String × Nat)) :
    (t.setNg n x).setNg n y = t.setNg n y := by
  rcases n with _ | _ | _ | _ | m <;> rfl

theorem rate_setNg (t : AuthorTables) (n : Nat)
    (x : List (List String × Nat)) : (t.setNg n x).rate = t.rate := by
  rcases n with _ | _ | _ | _ | m <;> rfl

theorem winScore_dget (t : List (List String × Nat)) (k : List String)
    (w : ℚ) (gs : List (List String)) :
    winScore (dget 0 t k).1 w gs = winScore t w gs := by
  unfold winScore
  congr 1
  apply List.map_congr_left
  intro g hg
  rw [dlookup_dget]

theorem rateScore_dget (r : List (List String × ℚ)) (k : List String)
    (ws : List (List String)) :
    rateScore (dget 0 r k).1 ws = rateScore r ws := by
  unfold rateScore
  congr 1
  apply List.map_congr_left
  intro w hw
  rw [dlookup_dget]

theorem winScore_nil (t : List (List String × Nat)) (w : ℚ) :
    winScore t w [] = 0 := rfl

theorem winScore_cons (t : List (List String × Nat)) (w : ℚ)
    (g : List String) (gs : List (List String)) :
    winScore t w (g :: gs) =
      ((dlookup 0 t g : ℕ) : ℚ) * w + winScore t w gs := by
  simp [winScore]

theorem rateScore_cons (r : List (List String × ℚ))
    (w : List String) (ws : List (List String)) :
    rateScore r (w :: ws) =
      dlookup 0 r w * 100000 + rateScore r ws := by
  simp [rateScore]

theorem phase1Step_eq (a1 a2 : String) (n : Nat)
    (s : AuthorTables × AuthorTables × List (String × ℚ)) (g : List String) :
    phase1Step a1 a2 n s g =
      (s.1.setNg n (dget 0 (s.1.getNg n) g).1,
       s.2.1.setNg n (dget 0 (s.2.1.getNg n) g).1,
       dadd 0
         (dadd 0 s.2.2 a1 (((dget 0 (s.1.getNg n) g).2 : ℚ) * 50 ^ (n - 1)))
         a2 (((dget 0 (s.2.1.getNg n) g).2 : ℚ) * 50 ^ (n - 1))) := rfl

theorem phase1N_nil (a1 a2 : String) (n : Nat)
    (s : AuthorTables × AuthorTables × List (String × ℚ)) :
    phase1N a1 a2 n [] s = s := rfl

theorem phase1N_cons (a1 a2 : String) (n : Nat) (g : List String)
    (gs : List (List String))
    (s : AuthorTables × AuthorTables × List (String × ℚ)) :
    phase1N a1 a2 n (g :: gs) s =
      phase1N a1 a2 n gs (phase1Step a1 a2 n s g) := rfl

theorem phase1N_t1 (a1 a2 : String) (n : Nat) (hn : n = 1 ∨ n = 2 ∨ n = 3)
    (gs : List (List String)) :
    ∀ s : AuthorTables × AuthorTables × List (String × ℚ),
      (phase1N a1 a2 n gs s).1 =
        s.1.setNg n (touchAll 0 (s.1.getNg n) gs) := by
  induction gs with
  | nil =>
    intro s
    rw [phase1N_nil, touchAll_nil, setNg_getNg_self]
  | cons g gs ih =>
    intro s
    rw [phase1N_cons, phase1Step_eq, ih]
    dsimp only
    rw [getNg_setNg_self _ _ _ hn, setNg_setNg, touchAll_cons]

theorem phase1N_t2 (a1 a2 : String) (n : Nat) (hn : n = 1 ∨ n = 2 ∨ n = 3)
    (gs : List (List String)) :
    ∀ s : AuthorTables × AuthorTables × List (String × ℚ),
      (phase1N a1 a2 n gs s).2.1 =
        s.2.1.setNg n (touchAll 0 (s.2.1.getNg n) gs) := by
  induction gs with
  | nil =>
    intro s
    rw [phase1N_nil, touchAll_nil, setNg_getNg_self]
  | cons g gs ih =>
    intro s
    rw [phase1N_cons, phase1Step_eq, ih]
    dsimp only
    rw [getNg_setNg_self _ _ _ hn, setNg_setNg, touchAll_cons]

theorem phase1N_sd (a1 a2 : String) (ha : a1 ≠ a2) (n : Nat)
    (hn : n = 1 ∨ n = 2 ∨ n = 3) (gs : List (List String)) :
    ∀ (s : AuthorTables × AuthorTables × List (String × ℚ)) (s1 s2 : ℚ),
      s.2.2 = [(a1, s1), (a2, s2)] →
      (phase1N a1 a2 n gs s).2.2 =
        [(a1, s1 + winScore (s.1.getNg n) (50 ^ (n - 1)) gs),
         (a2, s2 + winScore (s.2.1.getNg n) (50 ^ (n - 1)) gs)] := by
  induction gs with
  | nil =>
    intro s s1 s2 hsd
    rw [phase1N_nil, hsd, winScore_nil, winScore_nil, add_zero, add_zero]
  | cons g gs ih =>
    intro s s1 s2 hsd
    rw [phase1N_cons, phase1Step_eq, hsd]
    rw [dadd_pair_fst, dadd_pair_snd _ _ _ _ _ ha]
    rw [ih _ _ _ rfl]
    dsimp only
    rw [getNg_setNg_self _ _ _ hn, getNg_setNg_self _ _ _ hn]
    rw [winScore_dget, winScore_dget, dget_snd, dget_snd]
    rw [winScore_cons, winScore_cons, add_assoc, add_assoc]

theorem phase1N_from_nil (a1 a2 : String) (ha : a1 ≠ a2) (n : Nat)
    (hn : n = 1 ∨ n = 2 ∨ n = 3) (g : List String) (gs : List (List String))
    (t1 t2 : AuthorTables) :
    (phase1N a1 a2 n (g :: gs) (t1, t2, [])).2.2 =
      [(a1, winScore (t1.getNg n) (50 ^ (n - 1)) (g :: gs)),
       (a2, winScore (t2.getNg n) (50 ^ (n - 1)) (g :: gs))] := by
  rw [phase1N_cons, phase1Step_eq]
  dsimp only
  rw [dadd_nil_key, dadd_single_other _ _ _ _ ha]
  rw [phase1N_sd a1 a2 ha n hn gs _ _ _ rfl]
  dsimp only
  rw [getNg_setNg_self _ _ _ hn, getNg_setNg_self _ _ _ hn]
  rw [winScore_dget, winScore_dget, dget_snd, dget_snd]
  rw [winScore_cons, winScore_cons]

theorem phase1_eq (a1 a2 : String) (toks : List String)
    (t1 t2 : AuthorTables) :
    phase1 a1 a2 toks t1 t2 =
      phase1N a1 a2 3 (ngrams toks 3)
        (phase1N a1 a2 2 (ngrams toks 2)
          (phase1N a1 a2 1 (ngrams toks 1) (t1, t2, []))) := rfl

theorem phase1_t1 (a1 a2 : String) (toks : List String)
    (t1 t2 : AuthorTables) :
    (phase1 a1 a2 toks t1 t2).1 =
      ⟨touchAll 0 t1.ng1 (ngrams toks 1), touchAll 0 t1.ng2 (ngrams toks 2),
       touchAll 0 t1.ng3 (ngrams toks 3), t1.rate⟩ := by
  rw [phase1_eq]
  rw [phase1N_t1 a1 a2 3 (by norm_num) (ngrams toks 3)]
  rw [phase1N_t1 a1 a2 2 (by norm_num) (ngrams toks 2)]
  rw [phase1N_t1 a1 a2 1 (by norm_num) (ngrams toks 1)]
  dsimp only
  simp [AuthorTables.setNg, AuthorTables.getNg]

theorem phase1_t2 (a1 a2 : String) (toks : List String)
    (t1 t2 : AuthorTables) :
    (phase1 a1 a2 toks t1 t2).2.1 =
      ⟨touchAll 0 t2.ng1 (ngrams toks 1), touchAll 0 t2.ng2 (ngrams toks 2),
       touchAll 0 t2.ng3 (ngrams toks 3), t2.rate⟩ := by
  rw [phase1_eq]
  rw [phase1N_t2 a1 a2 3 (by norm_num) (ngrams toks 3)]
  rw [phase1N_t2 a1 a2 2 (by norm_num) (ngrams toks 2)]
  rw [phase1N_t2 a1 a2 1 (by norm_num) (ngrams toks 1)]
  dsimp only
  simp [AuthorTables.setNg, AuthorTables.getNg]

theorem ngrams_one_ne_nil (toks : List String) (h : toks ≠ []) :
    ngrams toks 1 ≠ [] := by
  intro hc
  have hlen := congrArg List.length hc
  simp only [ngrams, List.length_map, List.length_range, List.length_nil]
    at hlen
  have hl : toks.length ≠ 0 := fun hz => h (List.length_eq_zero.mp hz)
  omega

theorem phase1_sd_of_ne_nil (a1 a2 : String) (ha : a1 ≠ a2)
    (toks : List String) (h : toks ≠ []) (t1 t2 : AuthorTables) :
    (phase1 a1 a2 toks t1 t2).2.2 =
      [(a1, ngramPhaseScore t1 toks), (a2, ngramPhaseScore t2 toks)] := by
  obtain ⟨g, gs, hgs⟩ := List.exists_cons_of_ne_nil (ngrams_one_ne_nil toks h)
  have h1 : (phase1N a1 a2 1 (ngrams toks 1) (t1, t2, [])).2.2 =
      [(a1, winScore (t1.getNg 1) (50 ^ (1 - 1)) (ngrams toks 1)),
       (a2, winScore (t2.getNg 1) (50 ^ (1 - 1)) (ngrams toks 1))] := by
    rw [hgs]
    exact phase1N_from_nil a1 a2 ha 1 (by norm_num) g gs t1 t2
  have ht1 : (phase1N a1 a2 1 (ngrams toks 1)
      (t1, t2, ([] : List (String × ℚ)))).1 =
      t1.setNg 1 (touchAll 0 (t1.getNg 1) (ngrams toks 1)) :=
    phase1N_t1 a1 a2 1 (by norm_num) (ngrams toks 1) (t1, t2, [])
  have ht2 : (phase1N a1 a2 1 (ngrams toks 1)
      (t1, t2, ([] : List (String × ℚ)))).2.1 =
      t2.setNg 1 (touchAll 0 (t2.getNg 1) (ngrams toks 1)) :=
    phase1N_t2 a1 a2 1 (by norm_num) (ngrams toks 1) (t1, t2, [])
  have h2 := phase1N_sd a1 a2 ha 2 (by norm_num) (ngrams toks 2)
    (phase1N a1 a2 1 (ngrams toks 1) (t1, t2, [])) _ _ h1
  rw [ht1, ht2] at h2
  simp only [AuthorTables.setNg, AuthorTables.getNg] at h2
  have h2t1 : (phase1N a1 a2 2 (ngrams toks 2)
      (phase1N a1 a2 1 (ngrams toks 1) (t1, t2, ([] : List (String × ℚ))))).1 =
      (t1.setNg 1 (touchAll 0 (t1.getNg 1) (ngrams toks 1))).setNg 2
        (touchAll 0
          ((t1.setNg 1 (touchAll 0 (t1.getNg 1) (ngrams toks 1))).getNg 2)
          (ngrams toks 2)) := by
    rw [phase1N_t1 a1 a2 2 (by norm_num) (ngrams toks 2), ht1]
  have h2t2 : (phase1N a1 a2 2 (ngrams toks 2)
      (phase1N a1 a2 1 (ngrams toks 1) (t1, t2, ([] : List (String × ℚ))))).2.1 =
      (t2.setNg 1 (touchAll 0 (t2.getNg 1) (ngrams toks 1))).setNg 2
        (touchAll 0
          ((t2.setNg 1 (touchAll 0 (t2.getNg 1) (ngrams toks 1))).getNg 2)
          (ngrams toks 2)) := by
    rw [phase1N_t2 a1 a2 2 (by norm_num) (ngrams toks 2), ht2]
  simp only [AuthorTables.setNg, AuthorTables.getNg] at h2t1 h2t2
  have h3 := phase1N_sd a1 a2 ha 3 (by norm_num) (ngrams toks 3)
    (phase1N a1 a2 2 (ngrams toks 2)
      (phase1N a1 a2 1 (ngrams toks 1) (t1, t2, []))) _ _ h2
  rw [h2t1, h2t2] at h3
  simp only [AuthorTables.setNg, AuthorTables.getNg] at h3
  rw [phase1_eq, h3]
  simp only [ngramPhaseScore, AuthorTables.getNg, List.map_cons, List.map_nil,
    List.sum_cons, List.sum_nil, List.cons.injEq, Prod.mk.injEq, and_true,
    true_and]
  constructor
  · ring
  · ring

theorem phase1_of_nil (a1 a2 : String) (toks : List String)
    (ht : toks = []) (t1 t2 : AuthorTables) :
    phase1 a1 a2 toks t1 t2 = (t1, t2, []) := by
  subst ht
  rfl

theorem phase2_ok (a1 a2 : String)
    (s : AuthorTables × AuthorTables × List (String × ℚ))
    (h1 : sumValuesN s.1.ng1 ≠ 0) (h2 : sumValuesN s.2.1.ng1 ≠ 0) :
    phase2 a1 a2 s = .ok (s.1, s.2.1,
      dset s.2.2 a1 (dlookup 0 s.2.2 a1 /
        ((sumValuesN s.1.ng1 : ℚ) / (sumValuesN s.2.1.ng1 : ℚ)))) := by
  have hr : ((sumValuesN s.1.ng1 : ℚ) / (sumValuesN s.2.1.ng1 : ℚ)) ≠ 0 :=
    div_ne_zero (Nat.cast_ne_zero.mpr h1) (Nat.cast_ne_zero.mpr h2)
  simp only [phase2, if_neg h2, if_neg hr, dupdate_eq]

theorem phase2_err (a1 a2 : String)
    (s : AuthorTables × AuthorTables × List (String × ℚ))
    (h : sumValuesN s.2.1.ng1 = 0) :
    phase2 a1 a2 s = .error "ZeroDivisionError: division by zero" := by
  simp [phase2, h]

theorem phase3A_nil (a : String)
    (s : List (List String × ℚ) × List (String × ℚ)) :
    phase3A a [] s = s := rfl

theorem phase3A_cons (a : String) (w : List String)
    (ws : List (List String))
    (s : List (List String × ℚ) × List (String × ℚ)) :
    phase3A a (w :: ws) s =
      phase3A a ws
        ((dget 0 s.1 w).1, dadd 0 s.2 a ((dget 0 s.1 w).2 * 100000)) := rfl

theorem phase3A_spec (a : String) (ws : List (List String)) :
    ∀ (r : List (List String × ℚ)) (sd : List (String × ℚ)),
      dmem sd a = true →
      phase3A a ws (r, sd) = (touchAll 0 r ws, dadd 0 sd a (rateScore r ws)) := by
  induction ws with
  | nil =>
    intro r sd h
    rw [phase3A_nil, touchAll_nil]
    have hz : rateScore r [] = 0 := rfl
    rw [hz, dadd_eq_dset, add_zero, dset_self_of_dmem _ _ _ h]
  | cons w ws ih =>
    intro r sd h
    rw [phase3A_cons]
    dsimp only
    have hmem : dmem (dadd 0 sd a ((dget 0 r w).2 * 100000)) a = true := by
      rw [dmem_dadd]
      simp
    rw [ih _ _ hmem, dadd_dadd, rateScore_dget, dget_snd, touchAll_cons,
      rateScore_cons]

theorem phase3_spec (a1 a2 : String) (ha : a1 ≠ a2) (ws : List (List String))
    (t1 t2 : AuthorTables) (s1 s2 : ℚ) :
    phase3 a1 a2 ws t1 t2 [(a1, s1), (a2, s2)] =
      ({ t1 with rate := touchAll 0 t1.rate ws },
       { t2 with rate := touchAll 0 t2.rate ws },
       [(a1, s1 + rateScore t1.rate ws), (a2, s2 + rateScore t2.rate ws)]) := by
  simp only [phase3]
  rw [phase3A_spec a1 ws t1.rate _ (by simp [dmem])]
  dsimp only
  rw [dadd_pair_fst]
  rw [phase3A_spec a2 ws t2.rate _ (by simp [dmem])]
  dsimp only
  rw [dadd_pair_snd _ _ _ _ _ ha]

theorem pymaxGo_single (k : String) (v : ℚ) (p : String × ℚ) :
    pymaxGo k v [p] = if p.2 > v then p.1 else k := by
  rcases p with ⟨k2, v2⟩
  unfold pymaxGo
  split <;> rfl

theorem pymaxKey_pair (a1 a2 : String) (v1 v2 : ℚ) :
    pymaxKey [(a1, v1), (a2, v2)] = some (if v2 > v1 then a2 else a1) := by
  have h : pymaxKey [(a1, v1), (a2, v2)] =
      some (pymaxGo a1 v1 [(a2, v2)]) := rfl
  rw [h, pymaxGo_single]

theorem pymaxKey_single (a : String) (v : ℚ) : pymaxKey [(a, v)] = some a :=
  rfl

theorem analyzeOne_spec (a1 a2 qa text : String) (t1 t2 : AuthorTables)
    (ha : a1 ≠ a2) (h1 : sumValuesN t1.ng1 ≠ 0) (h2 : sumValuesN t2.ng1 ≠ 0)
    (ht : get_tokenized_text text ≠ []) :
    analyzeOne a1 a2 qa text t1 t2 =
      .ok ⟨(if finalScore2 t2 (get_tokenized_text text) >
              finalScore1 t1 t2 (get_tokenized_text text)
            then a2 else a1),
           (if finalScore2 t2 (get_tokenized_text text) >
              finalScore1 t1 t2 (get_tokenized_text text)
            then a2 else a1) == qa,
           [(a1, finalScore1 t1 t2 (get_tokenized_text text)),
            (a2, finalScore2 t2 (get_tokenized_text text))],
           touchedTables t1 (get_tokenized_text text),
           touchedTables t2 (get_tokenized_text text)⟩ := by
  simp only [analyzeOne]
  generalize hq : get_tokenized_text text = toks at ht ⊢
  have hsum1 : sumValuesN (phase1 a1 a2 toks t1 t2).1.ng1 =
      sumValuesN t1.ng1 := by
    rw [phase1_t1]
    exact sumValuesN_touchAll t1.ng1 (ngrams toks 1)
  have hsum2 : sumValuesN (phase1 a1 a2 toks t1 t2).2.1.ng1 =
      sumValuesN t2.ng1 := by
    rw [phase1_t2]
    exact sumValuesN_touchAll t2.ng1 (ngrams toks 1)
  have hp2 := phase2_ok a1 a2 (phase1 a1 a2 toks t1 t2)
    (by rw [hsum1]; exact h1) (by rw [hsum2]; exact h2)
  rw [hsum1, hsum2, phase1_sd_of_ne_nil a1 a2 ha toks ht t1 t2,
    dlookup_pair_fst, dset_pair_fst, phase1_t1, phase1_t2] at hp2
  rw [hp2]
  dsimp only
  rw [phase3_spec a1 a2 ha (ngrams toks 1)]
  dsimp only
  rw [pymaxKey_pair]
  simp only [finalScore1, finalScore2, touchedTables]

theorem analyzeOne_nil_spec (a1 a2 qa text : String) (t1 t2 : AuthorTables)
    (h1 : sumValuesN t1.ng1 ≠ 0) (h2 : sumValuesN t2.ng1 ≠ 0)
    (ht : get_tokenized_text text = []) :
    analyzeOne a1 a2 qa text t1 t2 = .ok ⟨a1, a1 == qa, [(a1, 0)], t1, t2⟩ := by
  simp only [analyzeOne]
  rw [ht, phase1_of_nil a1 a2 [] rfl t1 t2]
  have hp2 := phase2_ok a1 a2 (t1, t2, ([] : List (String × ℚ))) h1 h2
  rw [hp2]
  dsimp only
  have hsd : dset ([] : List (String × ℚ)) a1
      (dlookup 0 ([] : List (String × ℚ)) a1 /
        ((sumValuesN t1.ng1 : ℚ) / (sumValuesN t2.ng1 : ℚ))) =
      [(a1, (0 : ℚ))] := by
    rw [show dlookup (0 : ℚ) ([] : List (String × ℚ)) a1 = 0 from rfl,
      zero_div]
    rfl
  rw [hsd]
  rfl

theorem analyzeOne_err_tot2 (a1 a2 qa text : String) (t1 t2 : AuthorTables)
    (h : sumValuesN t2.ng1 = 0) :
    analyzeOne a1 a2 qa text t1 t2 =
      .error "ZeroDivisionError: division by zero" := by
  simp only [analyzeOne]
  have hsum2 : sumValuesN
      (phase1 a1 a2 (get_tokenized_text text) t1 t2).2.1.ng1 = 0 := by
    rw [phase1_t2]
    dsimp only
    rw [sumValuesN_touchAll, h]
  rw [phase2_err a1 a2 _ hsum2]

section BuildLemmas

variable {κ : Type} {β : Type} [DecidableEq κ]

theorem mem_dset (t : List (κ × β)) (k : κ) (v : β) (p : κ × β)
    (hp : p ∈ dset t k v) : p ∈ t ∨ p = (k, v) := by
  induction t with
  | nil =>
    simp only [dset, List.mem_singleton] at hp
    right
    exact hp
  | cons q rest ih =>
    by_cases h : q.1 = k
    · simp only [dset, if_pos h, List.mem_cons] at hp
      rcases hp with rfl | hp
      · right
        rfl
      · left
        simp [hp]
    · simp only [dset, if_neg h, List.mem_cons] at hp
      rcases hp with rfl | hp
      · left
        simp
      · rcases ih hp with h1 | h1
        · left
          simp [h1]
        · right
          exact h1

theorem dmem_iff_mem_keys (t : List (κ × β)) (k : κ) :
    dmem t k = true ↔ k ∈ t.map Prod.fst := by
  induction t with
  | nil => simp [dmem]
  | cons p rest ih =>
    simp only [dmem, Bool.or_eq_true, decide_eq_true_eq, ih, List.map_cons,
      List.mem_cons]
    constructor
    · rintro (h | h)
      · exact Or.inl h.symm
      · exact Or.inr h
    · rintro (h | h)
      · exact Or.inl h.symm
      · exact Or.inr h

theorem dmem_append (t u : List (κ × β)) (k : κ) :
    dmem (t ++ u) k = (dmem t k || dmem u k) := by
  induction t with
  | nil => simp [dmem]
  | cons p rest ih =>
    simp [dmem, ih, Bool.or_assoc]

theorem keys_dset_of_dmem (t : List (κ × β)) (k : κ) (v : β)
    (h : dmem t k = true) :
    (dset t k v).map Prod.fst = t.map Prod.fst := by
  induction t with
  | nil => simp [dmem] at h
  | cons p rest ih =>
    by_cases hp : p.1 = k
    · simp [dset, if_pos hp, hp]
    · simp only [dmem, Bool.or_eq_true, decide_eq_true_eq] at h
      rcases h with h | h
      · exact absurd h hp
      · simp [dset, if_neg hp, ih h]

theorem nodup_keys_dset (t : List (κ × β)) (k : κ) (v : β)
    (h : (t.map Prod.fst).Nodup) : ((dset t k v).map Prod.fst).Nodup := by
  cases hm : dmem t k
  · rw [dset_of_not_dmem _ _ _ hm]
    have hk : k ∉ t.map Prod.fst := by
      intro hc
      rw [← dmem_iff_mem_keys] at hc
      rw [hc] at hm
      exact Bool.noConfusion hm
    rw [List.map_append]
    refine List.Nodup.append h (List.nodup_singleton k) ?_
    intro x hx hx'
    simp only [List.map_cons, List.map_nil, List.mem_singleton] at hx'
    subst hx'
    exact hk hx
  · rw [keys_dset_of_dmem _ _ _ hm]
    exact h

theorem dadd_one_preserves (t : List (κ × Nat)) (g : κ)
    (h : ∀ p ∈ t, 1 ≤ p.2) : ∀ p ∈ dadd 0 t g 1, 1 ≤ p.2 := by
  rw [dadd_eq_dset]
  intro p hp
  rcases mem_dset _ _ _ p hp with h1 | h1
  · exact h p h1
  · rw [h1]
    simp

end BuildLemmas

theorem inner_fold_values (gs : List (List String)) :
    ∀ t : List (List String × Nat), (∀ p ∈ t, 1 ≤ p.2) →
      ∀ p ∈ gs.foldl (fun t g => dadd 0 t g 1) t, 1 ≤ p.2 := by
  induction gs with
  | nil =>
    intro t h
    simpa using h
  | cons g gs ih =>
    intro t h
    rw [List.foldl_cons]
    exact ih _ (dadd_one_preserves t g h)

theorem create_ngram_count_values (kts : List String) (n : Nat) :
    ∀ p ∈ create_ngram_count kts n, 1 ≤ p.2 := by
  unfold create_ngram_count
  suffices hgen : ∀ t : List (List String × Nat), (∀ p ∈ t, 1 ≤ p.2) →
      ∀ p ∈ kts.foldl
        (fun t known_text =>
          (ngrams (get_tokenized_text known_text) n).foldl
            (fun t g => dadd 0 t g 1) t) t, 1 ≤ p.2 by
    exact hgen [] (by simp)
  induction kts with
  | nil =>
    intro t h
    simpa using h
  | cons kt kts ih =>
    intro t h
    rw [List.foldl_cons]
    exact ih _ (inner_fold_values _ t h)

theorem inner_fold_nodup (gs : List (List String)) :
    ∀ t : List (List String × Nat), (t.map Prod.fst).Nodup →
      ((gs.foldl (fun t g => dadd 0 t g 1) t).map Prod.fst).Nodup := by
  induction gs with
  | nil =>
    intro t h
    simpa using h
  | cons g gs ih =>
    intro t h
    rw [List.foldl_cons]
    refine ih _ ?_
    rw [dadd_eq_dset]
    exact nodup_keys_dset t g _ h

theorem create_ngram_count_nodup (kts : List String) (n : Nat) :
    ((create_ngram_count kts n).map Prod.fst).Nodup := by
  unfold create_ngram_count
  suffices hgen : ∀ t : List (List String × Nat), (t.map Prod.fst).Nodup →
      ((kts.foldl
        (fun t known_text =>
          (ngrams (get_tokenized_text known_text) n).foldl
            (fun t g => dadd 0 t g 1) t) t).map Prod.fst).Nodup by
    exact hgen [] (by simp)
  induction kts with
  | nil =>
    intro t h
    simpa using h
  | cons kt kts ih =>
    intro t h
    rw [List.foldl_cons]
    exact ih _ (inner_fold_nodup _ t h)

theorem create_ngram_count_nil_of_sum_zero (kts : List String) (n : Nat)
    (h : sumValuesN (create_ngram_count kts n) = 0) :
    create_ngram_count kts n = [] := by
  cases hc : create_ngram_count kts n with
  | nil => rfl
  | cons p rest =>
    have h1 : 1 ≤ p.2 := create_ngram_count_values kts n p (by rw [hc]; simp)
    rw [hc] at h
    simp only [sumValuesN, List.map_cons, List.sum_cons] at h
    omega

theorem foldl_dset_eq_append_map (f : Nat → ℚ) :
    ∀ (l : List (List String × Nat)) (acc : List (List String × ℚ)),
      (l.map Prod.fst).Nodup →
      (∀ p ∈ l, dmem acc p.1 = false) →
      l.foldl (fun r p => dset r p.1 (f p.2)) acc =
        acc ++ l.map (fun p => (p.1, f p.2)) := by
  intro l
  induction l with
  | nil =>
    intro acc _ _
    simp
  | cons p l ih =>
    intro acc hnd hacc
    rw [List.foldl_cons, dset_of_not_dmem _ _ _ (hacc p (by simp))]
    have hrest : ∀ q ∈ l, dmem (acc ++ [(p.1, f p.2)]) q.1 = false := by
      intro q hq
      rw [dmem_append]
      have h1 : dmem acc q.1 = false := hacc q (by simp [hq])
      have h2 : ¬ (p.1 = q.1) := by
        intro hc
        have hql : q.1 ∈ l.map Prod.fst := List.mem_map_of_mem _ hq
        rw [← hc] at hql
        exact (List.nodup_cons.mp (by simpa using hnd)).1 hql
      simp [dmem, h1, h2]
    rw [ih (acc ++ [(p.1, f p.2)]) (by simpa using hnd.of_cons) hrest]
    simp

theorem create_word_occurrence_rate_eq (n1 : List (List String × Nat))
    (hnd : (n1.map Prod.fst).Nodup) :
    create_word_occurrence_rate n1 =
      n1.map (fun p => (p.1, (p.2 : ℚ) / (sumValuesN n1 : ℚ))) := by
  simp only [create_word_occurrence_rate]
  have h := foldl_dset_eq_append_map
    (fun c => (c : ℚ) / (sumValuesN n1 : ℚ)) n1 [] hnd (fun p _ => rfl)
  simpa using h

theorem dlookup_map_div (n1 : List (List String × Nat)) (s : ℚ)
    (g : List String) (hm : dmem n1 g = true) :
    dlookup 0 (n1.map (fun p => (p.1, (p.2 : ℚ) / s))) g =
      ((dlookup 0 n1 g : ℕ) : ℚ) / s := by
  induction n1 with
  | nil => simp [dmem] at hm
  | cons p rest ih =>
    simp only [List.map_cons, dlookup]
    by_cases h : p.1 = g
    · rw [if_pos h, if_pos h]
    · rw [if_neg h, if_neg h]
      simp only [dmem, Bool.or_eq_true, decide_eq_true_eq] at hm
      rcases hm with hm | hm
      · exact absurd hm h
      · exact ih hm

theorem sumValuesQ_rate (n1 : List (List String × Nat))
    (hnd : (n1.map Prod.fst).Nodup) (hs : sumValuesN n1 ≠ 0) :
    sumValuesQ (create_word_occurrence_rate n1) = 1 := by
  rw [create_word_occurrence_rate_eq n1 hnd]
  simp only [sumValuesQ, List.map_map]
  have hcomp : (Prod.snd ∘ fun p : List String × Nat =>
      (p.1, (p.2 : ℚ) / (sumValuesN n1 : ℚ))) =
      fun p : List String × Nat => (p.2 : ℚ) * ((sumValuesN n1 : ℚ))⁻¹ := by
    funext p
    simp [div_eq_mul_inv]
  rw [hcomp, List.sum_map_mul_right]
  have hcast : (n1.map fun p : List String × Nat => ((p.2 : ℕ) : ℚ)).sum =
      ((sumValuesN n1 : ℕ) : ℚ) := by
    rw [sumValuesN, Nat.cast_list_sum, List.map_map]
    rfl
  rw [hcast, mul_inv_cancel₀ (Nat.cast_ne_zero.mpr hs)]

theorem analyzeList_nil (a1 a2 qa : String) (t1 t2 : AuthorTables)
    (acc : List (String × String × Bool)) :
    analyzeList a1 a2 qa [] t1 t2 acc = .ok (acc, t1, t2) := rfl

theorem analyzeList_cons (a1 a2 qa q : String) (qs : List String)
    (t1 t2 : AuthorTables) (acc : List (String × String × Bool)) :
    analyzeList a1 a2 qa (q :: qs) t1 t2 acc =
      (match analyzeOne a1 a2 qa q t1 t2 with
       | .error e => .error e
       | .ok o => analyzeList a1 a2 qa qs o.tables1 o.tables2
           (acc ++ [(o.resultAuthor, q, o.isCorrect)])) := rfl

theorem analyzeList_ok_length (a1 a2 qa : String) :
    ∀ (qs : List String) (t1 t2 : AuthorTables)
      (acc rs : List (String × String × Bool))
      (tabs : AuthorTables × AuthorTables),
      analyzeList a1 a2 qa qs t1 t2 acc = .ok (rs, tabs) →
      rs.length = acc.length + qs.length := by
  intro qs
  induction qs with
  | nil =>
    intro t1 t2 acc rs tabs h
    rw [analyzeList_nil] at h
    simp only [Except.ok.injEq, Prod.mk.injEq] at h
    rw [← h.1]
    simp
  | cons q qs ih =>
    intro t1 t2 acc rs tabs h
    rw [analyzeList_cons] at h
    cases ho : analyzeOne a1 a2 qa q t1 t2 with
    | error e =>
      rw [ho] at h
      simp at h
    | ok o =>
      rw [ho] at h
      have hlen := ih o.tables1 o.tables2 _ rs tabs h
      simp only [List.length_append, List.length_cons, List.length_nil]
        at hlen ⊢
      omega

theorem create_questioned_length (a1 a2 : String) (q1 q2 : List String)
    (t1 t2 : AuthorTables) (rs : List (String × String × Bool))
    (tabs : AuthorTables × AuthorTables)
    (h : create_questioned_texts_analysis_result a1 a2 q1 q2 t1 t2 =
      .ok (rs, tabs)) :
    rs.length = q1.length + q2.length := by
  unfold create_questioned_texts_analysis_result at h
  cases h1 : analyzeList a1 a2 a1 q1 t1 t2 [] with
  | error e =>
    rw [h1] at h
    simp at h
  | ok r1 =>
    obtain ⟨acc1, tb1, tb2⟩ := r1
    rw [h1] at h
    dsimp only at h
    have l1 := analyzeList_ok_length a1 a2 a1 q1 t1 t2 [] acc1 (tb1, tb2) h1
    have l2 := analyzeList_ok_length a1 a2 a2 q2 tb1 tb2 acc1 rs tabs h
    simp only [List.length_nil] at l1
    omega

theorem extendsWithZeros_touchAll {κ β : Type} [DecidableEq κ]
    [DecidableEq β] (z : β) (t : List (κ × β)) (ks : List κ) :
    extendsWithZeros z t (touchAll z t ks) = true := by
  obtain ⟨ext, he, hz⟩ := touchAll_exists_ext z t ks
  rw [he]
  unfold extendsWithZeros
  rw [List.take_left, List.drop_left]
  simp only [List.all_eq_true, decide_eq_true_eq, Bool.and_eq_true]
  exact ⟨by simp, hz⟩

theorem extendsWithZeros_self {κ β : Type} [DecidableEq κ] [DecidableEq β]
    (z : β) (t : List (κ × β)) : extendsWithZeros z t t = true := by
  have h := extendsWithZeros_touchAll z t []
  rwa [touchAll_nil] at h

theorem dlookup_single_self {κ β : Type} [DecidableEq κ] (d : β) (a : κ)
    (v : β) : dlookup d [(a, v)] a = v := by
  simp [dlookup]

theorem dlookup_single_ne {κ β : Type} [DecidableEq κ] (d : β) (a1 a2 : κ)
    (v : β) (h : a1 ≠ a2) : dlookup d [(a1, v)] a2 = d := by
  simp [dlookup, if_neg h]

/-- C1 (counterexample): a questioned text of the first author whose only
token "gamma" is unseen by both authors gives both authors score 0, yet
the prediction is the FIRST author (Python `max` over the score dict
returns the first maximal entry in insertion order); since the text
belongs to the first author the result is recorded CORRECT — not the
claimed "no winner" recorded as incorrect. -/
theorem C1_counterexample :
    scoreOf (analyzeOne "a" "b" "a" "gamma" alphaTables betaTables) "a" =
      some 0 ∧
    scoreOf (analyzeOne "a" "b" "a" "gamma" alphaTables betaTables) "b" =
      some 0 ∧
    outcomeSummary (analyzeOne "a" "b" "a" "gamma" alphaTables betaTables) =
      some ("a", true) :=
  ⟨by with_unfolding_all rfl, by with_unfolding_all rfl,
   by with_unfolding_all rfl⟩

/-- C1 (amended): the prediction is Python `max` over the score dict, not
a zero-initialized running maximum: when scoring succeeds and the two
authors' final scores are equal — in particular for a questioned text
whose tokens are unseen by both authors, where both score 0 — the
prediction is the first author in caller-supplied order (never a "no
winner"), and it is recorded correct exactly when the questioned text
belongs to that first author; no crash occurs as long as both authors'
total unigram counts are nonzero. -/
theorem C1_tie_predicts_first_author (a1 a2 qa text : String)
    (t1 t2 : AuthorTables) (ha : a1 ≠ a2) (h1 : sumValuesN t1.ng1 ≠ 0)
    (h2 : sumValuesN t2.ng1 ≠ 0)
    (htie : scoreTie a1 a2 (analyzeOne a1 a2 qa text t1 t2) = true) :
    outcomeSummary (analyzeOne a1 a2 qa text t1 t2) =
      some (a1, a1 == qa) := by
  by_cases htok : get_tokenized_text text = []
  · rw [analyzeOne_nil_spec a1 a2 qa text t1 t2 h1 h2 htok]
    rfl
  · rw [analyzeOne_spec a1 a2 qa text t1 t2 ha h1 h2 htok] at htie ⊢
    unfold scoreTie at htie
    dsimp only at htie
    rw [dlookup_pair_fst, dlookup_pair_snd _ _ _ _ ha] at htie
    simp only [decide_eq_true_eq] at htie
    unfold outcomeSummary
    dsimp only
    rw [if_neg (by rw [htie]; exact lt_irrefl _)]

/-- C1 (witness): a concrete tie — the questioned text "delta" of the
SECOND author is unseen by both models, both score 0, the first author is
predicted and the result is recorded incorrect. -/
theorem C1_witness :
    ("a" ≠ "b" ∧ sumValuesN alphaTables.ng1 ≠ 0 ∧
      sumValuesN betaTables.ng1 ≠ 0 ∧
      scoreTie "a" "b"
        (analyzeOne "a" "b" "b" "delta" alphaTables betaTables) = true) ∧
    outcomeSummary (analyzeOne "a" "b" "b" "delta" alphaTables betaTables) =
      some ("a", "a" == "b") :=
  ⟨⟨by decide, by decide, by decide, by with_unfolding_all rfl⟩,
   C1_tie_predicts_first_author "a" "b" "b" "delta" alphaTables betaTables
     (by decide) (by decide) (by decide) (by with_unfolding_all rfl)⟩

/-- C2: after the n-gram accumulation step, the normalization step divides
exactly the first author's accumulated score by
`totalWordCountRatio = totalUnigramCount(author1) / totalUnigramCount(author2)`
(authors in caller-supplied order), and leaves the second author's score
unchanged. -/
theorem C2_ratio_divides_only_first_author (a1 a2 : String)
    (toks : List String) (t1 t2 : AuthorTables) (ha : a1 ≠ a2)
    (h1 : sumValuesN t1.ng1 ≠ 0) (h2 : sumValuesN t2.ng1 ≠ 0) :
    phase2 a1 a2 (phase1 a1 a2 toks t1 t2) =
      .ok ((phase1 a1 a2 toks t1 t2).1, (phase1 a1 a2 toks t1 t2).2.1,
        dset (phase1 a1 a2 toks t1 t2).2.2 a1
          (dlookup 0 (phase1 a1 a2 toks t1 t2).2.2 a1 /
            ((sumValuesN t1.ng1 : ℚ) / (sumValuesN t2.ng1 : ℚ)))) ∧
    dlookup 0
        (dset (phase1 a1 a2 toks t1 t2).2.2 a1
          (dlookup 0 (phase1 a1 a2 toks t1 t2).2.2 a1 /
            ((sumValuesN t1.ng1 : ℚ) / (sumValuesN t2.ng1 : ℚ)))) a2 =
      dlookup 0 (phase1 a1 a2 toks t1 t2).2.2 a2 := by
  have hsum1 : sumValuesN (phase1 a1 a2 toks t1 t2).1.ng1 =
      sumValuesN t1.ng1 := by
    rw [phase1_t1]
    exact sumValuesN_touchAll t1.ng1 (ngrams toks 1)
  have hsum2 : sumValuesN (phase1 a1 a2 toks t1 t2).2.1.ng1 =
      sumValuesN t2.ng1 := by
    rw [phase1_t2]
    exact sumValuesN_touchAll t2.ng1 (ngrams toks 1)
  constructor
  · have hp2 := phase2_ok a1 a2 (phase1 a1 a2 toks t1 t2)
      (by rw [hsum1]; exact h1) (by rw [hsum2]; exact h2)
    rw [hsum1, hsum2] at hp2
    exact hp2
  · exact dlookup_dset_of_ne _ _ _ _ _ (fun hc => ha hc.symm)

/-- C2 (witness): the normalization step at a concrete state. -/
theorem C2_witness :
    phase2 "a" "b" (phase1 "a" "b" ["alpha"] alphaTables betaTables) =
      .ok ((phase1 "a" "b" ["alpha"] alphaTables betaTables).1,
        (phase1 "a" "b" ["alpha"] alphaTables betaTables).2.1,
        dset (phase1 "a" "b" ["alpha"] alphaTables betaTables).2.2 "a"
          (dlookup 0 (phase1 "a" "b" ["alpha"] alphaTables betaTables).2.2 "a" /
            ((sumValuesN alphaTables.ng1 : ℚ) /
              (sumValuesN betaTables.ng1 : ℚ)))) ∧
    dlookup 0
        (dset (phase1 "a" "b" ["alpha"] alphaTables betaTables).2.2 "a"
          (dlookup 0 (phase1 "a" "b" ["alpha"] alphaTables betaTables).2.2 "a" /
            ((sumValuesN alphaTables.ng1 : ℚ) /
              (sumValuesN betaTables.ng1 : ℚ)))) "b" =
      dlookup 0 (phase1 "a" "b" ["alpha"] alphaTables betaTables).2.2 "b" :=
  C2_ratio_divides_only_first_author "a" "b" ["alpha"] alphaTables betaTables
    (by decide) (by decide) (by decide)

/-- C3 (counterexample): an author with zero texts passes splitting and
model construction without any error — the split returns two empty lists
and the built model is four empty tables — and the failure only appears
later, as a `ZeroDivisionError` when a questioned text is scored.  No
`InsufficientData` error is raised before model construction proceeds. -/
theorem C3_counterexample :
    divide_questioned_texts_and_known_texts [] = ([], []) ∧
    buildAuthorTables [] = ⟨[], [], [], []⟩ ∧
    analyzeOne "a" "b" "a" "alpha" alphaTables (buildAuthorTables []) =
      .error "ZeroDivisionError: division by zero" :=
  ⟨rfl, rfl, by with_unfolding_all rfl⟩

/-- C3 (amended): the code raises no `InsufficientData` error anywhere: an
author with zero texts (hence zero known texts) sails through splitting
and model construction, producing empty n-gram and rate tables, and the
failure is only discovered downstream as a division-by-zero error when
any questioned text is scored against that author's model in the second
position. -/
theorem C3_zero_texts_fail_downstream (a1 a2 qa text : String)
    (t1 : AuthorTables) :
    divide_questioned_texts_and_known_texts [] = ([], []) ∧
    buildAuthorTables [] = ⟨[], [], [], []⟩ ∧
    analyzeOne a1 a2 qa text t1 (buildAuthorTables []) =
      .error "ZeroDivisionError: division by zero" :=
  ⟨rfl, rfl, analyzeOne_err_tot2 a1 a2 qa text t1 (buildAuthorTables []) rfl⟩

/-- C4: for every questioned text and each author, the score accumulated
before normalization is `sum over n in [1,2,3], over every contiguous
n-token window g, of count(g, author, n) * 50 ^ (n - 1)` (absent windows
contribute 0), and the final score adds, after normalization,
`rate(token, author) * 100000` for every unigram token (unknown tokens
contribute 0): first author's final score is the normalized accumulation
plus its rate contribution, second author's is the raw accumulation plus
its rate contribution. -/
theorem C4_score_formula (a1 a2 qa text : String) (t1 t2 : AuthorTables)
    (ha : a1 ≠ a2) (h1 : sumValuesN t1.ng1 ≠ 0)
    (h2 : sumValuesN t2.ng1 ≠ 0) :
    dlookup 0 (phase1 a1 a2 (get_tokenized_text text) t1 t2).2.2 a1 =
      ngramPhaseScore t1 (get_tokenized_text text) ∧
    dlookup 0 (phase1 a1 a2 (get_tokenized_text text) t1 t2).2.2 a2 =
      ngramPhaseScore t2 (get_tokenized_text text) ∧
    scoreOf (analyzeOne a1 a2 qa text t1 t2) a1 =
      some (finalScore1 t1 t2 (get_tokenized_text text)) ∧
    scoreOf (analyzeOne a1 a2 qa text t1 t2) a2 =
      some (finalScore2 t2 (get_tokenized_text text)) := by
  by_cases htok : get_tokenized_text text = []
  · rw [analyzeOne_nil_spec a1 a2 qa text t1 t2 h1 h2 htok,
      phase1_of_nil a1 a2 _ htok t1 t2, htok]
    have hz1 : ngramPhaseScore t1 [] = 0 := by with_unfolding_all rfl
    have hz2 : ngramPhaseScore t2 [] = 0 := by with_unfolding_all rfl
    have hr1 : rateScore t1.rate (ngrams ([] : List String) 1) = 0 := rfl
    have hr2 : rateScore t2.rate (ngrams ([] : List String) 1) = 0 := rfl
    have hf1 : finalScore1 t1 t2 [] = 0 := by
      simp [finalScore1, hz1, hr1]
    have hf2 : finalScore2 t2 [] = 0 := by
      simp [finalScore2, hz2, hr2]
    refine ⟨by with_unfolding_all rfl, by with_unfolding_all rfl, ?_, ?_⟩
    · rw [hf1]
      unfold scoreOf
      dsimp only
      exact congrArg some (dlookup_single_self (0 : ℚ) a1 0)
    · rw [hf2]
      unfold scoreOf
      dsimp only
      exact congrArg some (dlookup_single_ne (0 : ℚ) a1 a2 0 ha)
  · rw [analyzeOne_spec a1 a2 qa text t1 t2 ha h1 h2 htok,
      phase1_sd_of_ne_nil a1 a2 ha _ htok t1 t2]
    refine ⟨dlookup_pair_fst _ _ _ _, dlookup_pair_snd _ _ _ _ ha, ?_, ?_⟩
    · unfold scoreOf
      dsimp only
      exact congrArg some (dlookup_pair_fst _ _ _ _)
    · unfold scoreOf
      dsimp only
      exact congrArg some (dlookup_pair_snd _ _ _ _ ha)

/-- C4 (witness): the score formula at a concrete run. -/
theorem C4_witness :
    ("a" ≠ "b" ∧ sumValuesN alphaTables.ng1 ≠ 0 ∧
      sumValuesN betaTables.ng1 ≠ 0) ∧
    scoreOf (analyzeOne "a" "b" "a" "alpha beta" alphaTables betaTables) "a" =
      some (finalScore1 alphaTables betaTables
        (get_tokenized_text "alpha beta")) ∧
    scoreOf (analyzeOne "a" "b" "a" "alpha beta" alphaTables betaTables) "b" =
      some (finalScore2 betaTables (get_tokenized_text "alpha beta")) :=
  ⟨⟨by decide, by decide, by decide⟩,
   (C4_score_formula "a" "b" "a" "alpha beta" alphaTables betaTables
     (by decide) (by decide) (by decide)).2.2⟩

/-- C5: for an author built from known texts, if the author has at least
one known unigram then every token of the `n = 1` table gets rate
`count(token) / totalUnigramCount` and the rates sum to exactly 1; if the
total unigram count is 0 the rate table is left empty and every lookup
yields 0 (the `defaultdict(float)` default) rather than an error. -/
theorem C5_occurrence_rates (kts : List String) :
    (sumValuesN (create_ngram_count kts 1) ≠ 0 →
      (∀ g : List String, dmem (create_ngram_count kts 1) g = true →
        dlookup 0 (create_word_occurrence_rate (create_ngram_count kts 1)) g =
          ((dlookup 0 (create_ngram_count kts 1) g : ℕ) : ℚ) /
            (sumValuesN (create_ngram_count kts 1) : ℚ)) ∧
      sumValuesQ (create_word_occurrence_rate (create_ngram_count kts 1)) =
        1) ∧
    (sumValuesN (create_ngram_count kts 1) = 0 →
      create_word_occurrence_rate (create_ngram_count kts 1) = [] ∧
      ∀ g : List String,
        dlookup 0 (create_word_occurrence_rate (create_ngram_count kts 1)) g
          = 0) := by
  constructor
  · intro hs
    constructor
    · intro g hg
      rw [create_word_occurrence_rate_eq _ (create_ngram_count_nodup kts 1)]
      exact dlookup_map_div _ _ g hg
    · exact sumValuesQ_rate _ (create_ngram_count_nodup kts 1) hs
  · intro hs
    have hnil := create_ngram_count_nil_of_sum_zero kts 1 hs
    rw [hnil]
    exact ⟨rfl, fun g => rfl⟩

/-- C5 (witness): concrete known texts with three unigrams; the rate of
token "a" is its count divided by the total, and the rates sum to 1. -/
theorem C5_witness :
    (sumValuesN (create_ngram_count ["a a b"] 1) ≠ 0 ∧
      dmem (create_ngram_count ["a a b"] 1) ["a"] = true) ∧
    dlookup 0 (create_word_occurrence_rate (create_ngram_count ["a a b"] 1))
        ["a"] =
      ((dlookup 0 (create_ngram_count ["a a b"] 1) ["a"] : ℕ) : ℚ) /
        (sumValuesN (create_ngram_count ["a a b"] 1) : ℚ) ∧
    sumValuesQ (create_word_occurrence_rate (create_ngram_count ["a a b"] 1))
      = 1 :=
  ⟨⟨by decide, by decide⟩,
   ((C5_occurrence_rates ["a a b"]).1 (by decide)).1 ["a"] (by decide),
   ((C5_occurrence_rates ["a a b"]).1 (by decide)).2⟩

/-- C6: on any shuffled permutation of an author's texts, the split takes
`floor(0.9 * N)` texts as known, the rest as questioned; the lengths add
up to the original length and the multiset union of the two parts is the
original multiset of texts. -/
theorem C6_split_completeness (texts shuffled : List String)
    (hperm : shuffled.Perm texts) :
    (divide_questioned_texts_and_known_texts shuffled).1.length =
      9 * texts.length / 10 ∧
    (divide_questioned_texts_and_known_texts shuffled).1.length +
      (divide_questioned_texts_and_known_texts shuffled).2.length =
      texts.length ∧
    ((divide_questioned_texts_and_known_texts shuffled).1 ++
      (divide_questioned_texts_and_known_texts shuffled).2).Perm texts := by
  have hlen : shuffled.length = texts.length := hperm.length_eq
  unfold divide_questioned_texts_and_known_texts
  dsimp only
  have hle : 9 * shuffled.length / 10 ≤ shuffled.length := by omega
  refine ⟨?_, ?_, ?_⟩
  · rw [List.length_take, min_eq_left hle, hlen]
  · rw [List.length_take, List.length_drop]
    omega
  · rw [List.take_append_drop]
    exact hperm

/-- C6 (witness): a two-element collection in shuffled order. -/
theorem C6_witness :
    (["y", "x"] : List String).Perm ["x", "y"] ∧
    (divide_questioned_texts_and_known_texts ["y", "x"]).1.length =
      9 * (["x", "y"] : List String).length / 10 ∧
    (divide_questioned_texts_and_known_texts ["y", "x"]).1.length +
      (divide_questioned_texts_and_known_texts ["y", "x"]).2.length =
      (["x", "y"] : List String).length ∧
    ((divide_questioned_texts_and_known_texts ["y", "x"]).1 ++
      (divide_questioned_texts_and_known_texts ["y", "x"]).2).Perm
      ["x", "y"] :=
  ⟨by decide,
   C6_split_completeness ["x", "y"] ["y", "x"] (by decide)⟩

/-- C7: if the second author's total unigram count is zero, scoring any
questioned text stops with the division-by-zero error raised at the
word-count-ratio computation — no score map with infinities or NaNs is
ever produced. -/
theorem C7_degenerate_ratio_error (a1 a2 qa text : String)
    (t1 t2 : AuthorTables) (h : sumValuesN t2.ng1 = 0) :
    analyzeOne a1 a2 qa text t1 t2 =
      .error "ZeroDivisionError: division by zero" :=
  analyzeOne_err_tot2 a1 a2 qa text t1 t2 h

/-- C7 (witness): scoring against a second author with an empty model
raises the division error. -/
theorem C7_witness :
    sumValuesN (buildAuthorTables ([] : List String)).ng1 = 0 ∧
    analyzeOne "b" "a" "b" "beta beta" betaTables
        (buildAuthorTables ([] : List String)) =
      .error "ZeroDivisionError: division by zero" :=
  ⟨by decide,
   C7_degenerate_ratio_error "b" "a" "b" "beta beta" betaTables
     (buildAuthorTables ([] : List String)) (by decide)⟩

/-- C8 (counterexample): scoring is NOT free of writes to the model
tables: scoring the text "alpha" against the second author's model (built
from "beta", which does not contain the key ["alpha"]) appends a
zero-valued entry (["alpha"], 0) to that author's `n = 1` count table and
to its rate table — entries ARE added, contradicting "no entries are
added to or removed from any table". -/
theorem C8_counterexample :
    dmem betaTables.ng1 ["alpha"] = false ∧
    dmem betaTables.rate ["alpha"] = false ∧
    tablesOf (analyzeOne "a" "b" "a" "alpha" alphaTables betaTables) =
      some (⟨[(["alpha"], 1)], [], [], [(["alpha"], 1)]⟩,
            ⟨[(["beta"], 1), (["alpha"], 0)], [], [],
             [(["beta"], 1), (["alpha"], 0)]⟩) :=
  ⟨by decide, by with_unfolding_all rfl, by with_unfolding_all rfl⟩

/-- C8 (amended): scoring a questioned text leaves every stored count and
rate unchanged and removes nothing, but it may APPEND zero-valued entries
to the n-gram count tables and rate tables (the `defaultdict` lookups
insert missing keys with the default 0); every table after scoring is the
old table plus a suffix of zero-valued entries, so every lookup result is
unchanged. -/
theorem C8_scoring_appends_only_zeros (a1 a2 qa text : String)
    (t1 t2 : AuthorTables) (ha : a1 ≠ a2) (h1 : sumValuesN t1.ng1 ≠ 0)
    (h2 : sumValuesN t2.ng1 ≠ 0) :
    preservesTables t1 t2 (analyzeOne a1 a2 qa text t1 t2) = true := by
  by_cases htok : get_tokenized_text text = []
  · rw [analyzeOne_nil_spec a1 a2 qa text t1 t2 h1 h2 htok]
    unfold preservesTables
    simp [extendsWithZeros_self]
  · rw [analyzeOne_spec a1 a2 qa text t1 t2 ha h1 h2 htok]
    unfold preservesTables
    dsimp only [touchedTables]
    simp [extendsWithZeros_touchAll]

/-- C8 (witness): the frame property at a concrete scoring run. -/
theorem C8_witness :
    ("a" ≠ "b" ∧ sumValuesN alphaTables.ng1 ≠ 0 ∧
      sumValuesN betaTables.ng1 ≠ 0) ∧
    preservesTables alphaTables betaTables
        (analyzeOne "a" "b" "a" "alpha beta gamma" alphaTables betaTables) =
      true :=
  ⟨⟨by decide, by decide, by decide⟩,
   C8_scoring_appends_only_zeros "a" "b" "a" "alpha beta gamma" alphaTables
     betaTables (by decide) (by decide) (by decide)⟩

/-- C9: when the analysis of all questioned texts succeeds, it produces
exactly one classification result per questioned text, and the reported
accuracy is `correctCount / totalQuestionedTextCount * 100`, where
`correctCount` is the number of results whose isCorrect flag is true and
the total is the number of questioned texts across both authors. -/
theorem C9_accuracy (a1 a2 : String) (q1 q2 : List String)
    (t1 t2 : AuthorTables) (rs : List (String × String × Bool))
    (tabs : AuthorTables × AuthorTables)
    (h : create_questioned_texts_analysis_result a1 a2 q1 q2 t1 t2 =
      .ok (rs, tabs))
    (hn : q1.length + q2.length ≠ 0) :
    rs.length = q1.length + q2.length ∧
    print_accuracy_value q1.length q2.length rs =
      .ok ((countCorrect rs : ℚ) /
        ((q1.length + q2.length : ℕ) : ℚ) * 100) := by
  refine ⟨create_questioned_length a1 a2 q1 q2 t1 t2 rs tabs h, ?_⟩
  simp only [print_accuracy_value, if_neg hn]

/-- C9 (witness): one questioned text, classified correctly; the reported
accuracy value is `1 / 1 * 100`. -/
theorem C9_witness :
    ([("a", "alpha", true)] : List (String × String × Bool)).length =
      (["alpha"] : List String).length + ([] : List String).length ∧
    print_accuracy_value (["alpha"] : List String).length
        ([] : List String).length [("a", "alpha", true)] =
      .ok ((countCorrect [("a", "alpha", true)] : ℚ) /
        (((["alpha"] : List String).length + ([] : List String).length :
          ℕ) : ℚ) * 100) :=
  C9_accuracy "a" "b" ["alpha"] [] alphaTables betaTables
    [("a", "alpha", true)]
    (⟨[(["alpha"], 1)], [], [], [(["alpha"], 1)]⟩,
     ⟨[(["beta"], 1), (["alpha"], 0)], [], [],
      [(["beta"], 1), (["alpha"], 0)]⟩)
    (by with_unfolding_all rfl) (by decide)

/-- C10 (counterexample): for a questioned text with empty tokenization
the scorer is NOT always error-free: when the second author's total
unigram count is zero the word-count-ratio computation still runs first
and raises a division-by-zero error. -/
theorem C10_counterexample :
    get_tokenized_text "" = [] ∧
    analyzeOne "a" "b" "a" "" alphaTables
        (buildAuthorTables ([] : List String)) =
      .error "ZeroDivisionError: division by zero" :=
  ⟨rfl, by with_unfolding_all rfl⟩

/-- C10 (amended): provided both authors' total unigram counts are
nonzero, scoring a questioned text whose tokenization is empty yields a
score map containing ONLY the first author, with score 0 created by the
ratio-division step, so the prediction is always the first author in
caller order — never the second author, never a "no winner" — and the
model tables are untouched. -/
theorem C10_empty_tokenization_first_author (a1 a2 qa text : String)
    (t1 t2 : AuthorTables) (h1 : sumValuesN t1.ng1 ≠ 0)
    (h2 : sumValuesN t2.ng1 ≠ 0) (ht : get_tokenized_text text = []) :
    analyzeOne a1 a2 qa text t1 t2 =
      .ok ⟨a1, a1 == qa, [(a1, 0)], t1, t2⟩ :=
  analyzeOne_nil_spec a1 a2 qa text t1 t2 h1 h2 ht

/-- C10 (witness): a concrete questioned text with no word characters is
attributed to the first author with score 0. -/
theorem C10_witness :
    (sumValuesN alphaTables.ng1 ≠ 0 ∧ sumValuesN betaTables.ng1 ≠ 0 ∧
      get_tokenized_text "!!!" = []) ∧
    analyzeOne "a" "b" "a" "!!!" alphaTables betaTables =
      .ok ⟨"a", "a" == "a", [("a", 0)], alphaTables, betaTables⟩ :=
  ⟨⟨by decide, by decide, by decide⟩,
   C10_empty_tokenization_first_author "a" "b" "a" "!!!" alphaTables
     betaTables (by decide) (by decide) (by decide)⟩

end AuthorshipAnalysis
